import Mathlib

/-!
Shallow embedding of the conversation-analysis pipeline in
`conversation_analyzer.py` (class `ConversationAnalyzer`): message
normalization (`preprocess_data`, `_extract_customer_number`), grouping
(`group_conversations`), per-thread classification (`analyze_conversation`
with the external judgment call abstracted as a function argument),
result collection (`process_conversations`) and report statistics
(`generate_report`).

Python dynamic values that can be either a JSON boolean or a string
(the `has_query` field of a classification dict) are modelled by `PyVal`.
Timestamps are modelled as natural numbers: the code parses them into
`datetime` values and only compares and formats them, so any linearly
ordered carrier is faithful.  The external OpenAI call plus
`json.loads` is modelled as a function returning `Except String
ClassificationResult`: `Except.error` covers both a failing call and an
unparsable response (both raise and are caught by the same handler).
-/

deriving instance DecidableEq for Except

namespace ConvAnalyzer

/-- A Python value that is either a boolean or a string (the dynamic type
of the `has_query` entry of a result dict). -/
inductive PyVal
  | bool (b : Bool)
  | str (s : String)
deriving DecidableEq

/-- Python truthiness of such a value, as used by
`if result.get('has_query', False)`: a boolean is itself, a string is
truthy when non-empty. -/
def PyVal.truthy : PyVal → Bool
  | PyVal.bool b => b
  | PyVal.str s => !(s == "")

/-- Python `str.strip()`: drop whitespace from both ends. -/
def pyStrip (s : String) : String :=
  String.mk (((s.data.dropWhile Char.isWhitespace).reverse.dropWhile Char.isWhitespace).reverse)

/-- Helper for `splitComma`: accumulates the current chunk (reversed). -/
def splitCommaAux (cur : List Char) : List Char → List String
  | [] => [String.mk cur.reverse]
  | c :: rest =>
    if c = ',' then String.mk cur.reverse :: splitCommaAux [] rest
    else splitCommaAux (c :: cur) rest

/-- Python `s.split(',')`.  Like in Python, the result is never the empty
list: splitting the empty string gives `[""]`. -/
def splitComma (s : String) : List String :=
  splitCommaAux [] s.data

/-- Python `',' in s`. -/
def strContainsComma (s : String) : Bool :=
  s.data.any (fun c => c = ',')

/-- Python `str.upper()` (ASCII, which is all the code compares). -/
def pyUpper (s : String) : String :=
  String.mk (s.data.map Char.toUpper)

/-- Does `hay` start with `needle`? -/
def leadsWith : List Char → List Char → Bool
  | [], _ => true
  | _ :: _, [] => false
  | a :: as, b :: bs => a = b && leadsWith as bs

/-- Python `needle in hay` substring containment. -/
def containsSub (needle : List Char) : List Char → Bool
  | [] => needle.isEmpty
  | c :: rest => leadsWith needle (c :: rest) || containsSub needle rest

/-- `self.support_number`, the well-known operator identifier. -/
def support_number : String := "+14159436084"

/-- The system-generated activation notice filtered out by
`preprocess_data` (the literal as it appears in the source). -/
def congratsNotice : String := "Congratulations ðŸŽ‰, your phone number is now active!"

/-- A raw input row: body, (already parsed) timestamp, and the raw
participant-list field, `none` modelling a missing (NaN) value. -/
structure RawRow where
  message_body : String
  message_timestamp : Nat
  message_members : Option String
deriving DecidableEq

/-- A normalized row after `preprocess_data`: the original fields plus the
derived `is_ai` flag and the derived `customer_number` column
(`none` models a Python `None`). -/
structure NormRow where
  message_timestamp : Nat
  message_body : String
  is_ai : Bool
  customer_number : Option String
deriving DecidableEq

/-- The message dict copied into a conversation by `group_conversations`. -/
structure Msg where
  message_timestamp : Nat
  message_body : String
  is_ai : Bool
deriving DecidableEq

/-- `_extract_customer_number`.  `Except.error ()` models the `IndexError`
raised by `[...][0]` when the filtered list is empty; the guard
`if len(numbers) > 0 else None` is translated verbatim even though a
Python `split(',')` never returns an empty list. -/
def _extract_customer_number (members : Option String) : Except Unit (Option String) :=
  match members with
  | none => Except.ok none
  | some s =>
    if (splitComma s).length > 0 then
      match ((splitComma s).map pyStrip).filter (fun n => n != support_number) with
      | [] => Except.error ()
      | c :: _ => Except.ok (some c)
    else Except.ok none

/-- The `is_ai` column: `True if ',' not in str(x) else False`.
`str` of a NaN cell is `"nan"`, which contains no comma. -/
def is_ai_of (members : Option String) : Bool :=
  match members with
  | none => true
  | some s => !(strContainsComma s)

/-- Normalization of one row: derive `is_ai` and `customer_number`
(the latter can raise, which aborts the whole `apply`). -/
def normalizeRow (r : RawRow) : Except Unit NormRow :=
  match _extract_customer_number r.message_members with
  | Except.error e => Except.error e
  | Except.ok c => Except.ok ⟨r.message_timestamp, r.message_body, is_ai_of r.message_members, c⟩

/-- Elementwise normalization with exception propagation, modelling the
columnwise `apply` calls of `preprocess_data`. -/
def mapExcept : List RawRow → Except Unit (List NormRow)
  | [] => Except.ok []
  | a :: l =>
    match normalizeRow a with
    | Except.error e => Except.error e
    | Except.ok b =>
      match mapExcept l with
      | Except.error e => Except.error e
      | Except.ok bs => Except.ok (b :: bs)

/-- Ordering of raw rows by timestamp, used for `sort_values('message_timestamp')`. -/
def tsLE (a b : RawRow) : Prop := a.message_timestamp ≤ b.message_timestamp

instance : DecidableRel tsLE := fun a b => Nat.decLe a.message_timestamp b.message_timestamp

instance : IsTotal RawRow tsLE := ⟨fun a b => Nat.le_total a.message_timestamp b.message_timestamp⟩

instance : IsTrans RawRow tsLE := ⟨fun _ _ _ hab hbc => Nat.le_trans hab hbc⟩

/-- `preprocess_data`: drop activation notices, sort by timestamp, derive
the `is_ai` and `customer_number` columns.  The sort is modelled by
insertion sort; `sort_values` likewise yields a timestamp-sorted
rearrangement. -/
def preprocess_data (rows : List RawRow) : Except Unit (List NormRow) :=
  mapExcept (List.insertionSort tsLE
    (rows.filter (fun r => !(containsSub congratsNotice.data r.message_body.data))))

/-- The five-field classification dict. -/
structure ClassificationResult where
  has_query : PyVal
  query_type : String
  resolution : String
  resolution_type : String
  reasoning : String
deriving DecidableEq

/-- `strftime`-style rendering of a timestamp (opaque to every claim). -/
def formatTimestamp (t : Nat) : String := toString t

/-- `_format_conversation`. -/
def _format_conversation (messages : List Msg) : String :=
  String.intercalate "\n" (messages.map (fun m =>
    formatTimestamp m.message_timestamp ++ " - " ++
      (if m.is_ai then "AI" else "Customer") ++ ": " ++ m.message_body))

/-- The early-return result for a thread without AI messages. -/
def noQueryResult : ClassificationResult :=
  ⟨PyVal.bool false, "NO_QUERY", "NO_QUERY", "NO_QUERY", "No AI messages found in conversation"⟩

/-- The result built by the `except` handler of `analyze_conversation`. -/
def errorResult (e : String) : ClassificationResult :=
  ⟨PyVal.bool false, "ERROR", "ERROR", "ERROR", "Error analyzing conversation: " ++ e⟩

/-- `analyze_conversation`, with the external judgment service abstracted
as `call` (arguments: the full transcript and the AI-only transcript).
`Except.error` covers a failing API call and an unparsable response. -/
def analyze_conversation (call : String → String → Except String ClassificationResult)
    (messages : List Msg) : ClassificationResult :=
  let ai_messages := messages.filter (fun m => m.is_ai)
  if ai_messages.isEmpty then noQueryResult
  else
    match call (_format_conversation messages) (_format_conversation ai_messages) with
    | Except.ok r => r
    | Except.error e => errorResult e

/-- Whether `analyze_conversation` reaches the external call (it does
exactly when the AI-message filter is non-empty). -/
def calls_external (messages : List Msg) : Bool :=
  !(messages.filter (fun m => m.is_ai)).isEmpty

/-- An entry of `self.results`: `conversation_id`, message count, and the
classification fields spliced in by `**analysis`. -/
structure AnalysisResult where
  conversation_id : String
  messages : Nat
  has_query : PyVal
  query_type : String
  resolution : String
  resolution_type : String
  reasoning : String
deriving DecidableEq

/-- Building one `self.results` entry from a classification. -/
def mkResult (cid : String) (n : Nat) (a : ClassificationResult) : AnalysisResult :=
  ⟨cid, n, a.has_query, a.query_type, a.resolution, a.resolution_type, a.reasoning⟩

/-- One iteration of `process_conversations`: skip falsy customer keys,
then build the result entry (`messages[0]` on an empty list would raise
and be swallowed by the `try`, dropping the entry). -/
def processConv (call : String → String → Except String ClassificationResult)
    (c : String × List Msg) : Option AnalysisResult :=
  if c.1 = "" then none
  else
    match c.2 with
    | [] => none
    | m :: _ =>
      some (mkResult (c.1 ++ "-" ++ formatTimestamp m.message_timestamp) c.2.length
        (analyze_conversation call c.2))

/-- `process_conversations` over the grouped conversations. -/
def process_conversations (call : String → String → Except String ClassificationResult)
    (convs : List (String × List Msg)) : List AnalysisResult :=
  convs.filterMap (processConv call)

/-- `query_results`: the with-query results. -/
def queryResults (results : List AnalysisResult) : List AnalysisResult :=
  results.filter (fun r => r.has_query.truthy)

/-- `no_query_count`. -/
def noQueryCount (results : List AnalysisResult) : Nat :=
  results.length - (queryResults results).length

/-- `resolved`: case-insensitive match of `resolution` against "RESOLVED". -/
def resolvedCount (results : List AnalysisResult) : Nat :=
  ((queryResults results).filter (fun r => pyUpper r.resolution == "RESOLVED")).length

/-- `resolution_rate`, as a rational. -/
def resolutionRate (results : List AnalysisResult) : ℚ :=
  if (queryResults results).length > 0 then
    (resolvedCount results : ℚ) / ((queryResults results).length : ℚ) * 100
  else 0

/-- `hard_resolutions`: exact-case match against "Hard". -/
def hardResolutions (results : List AnalysisResult) : Nat :=
  ((queryResults results).filter (fun r => r.resolution_type == "Hard")).length

/-- `soft_resolutions`: exact-case match against "Soft". -/
def softResolutions (results : List AnalysisResult) : Nat :=
  ((queryResults results).filter (fun r => r.resolution_type == "Soft")).length

/-- One block of the Detailed Analysis section, as concatenated by
`generate_report`. -/
def detailBlock (r : AnalysisResult) : String :=
  "\n### Conversation " ++ r.conversation_id ++ "\n**Query Status:** " ++
    (if r.has_query.truthy then "Query Present" else "No Query") ++
    "\n**Query Type:** " ++ r.query_type ++
    "\n**Resolution Status:** " ++ r.resolution ++
    "\n**Resolution Type:** " ++ r.resolution_type ++
    "\n\n**Analysis:**\n" ++ r.reasoning ++ "\n\n---\n"

/-- The Detailed Analysis section: one block per result, in order. -/
def detailBlocks (results : List AnalysisResult) : List String :=
  results.map detailBlock

/-- The report data computed by `generate_report` (overview statistics and
the ordered detail blocks; the surrounding Markdown boilerplate carries
no further information). -/
structure Report where
  totalConversations : Nat
  withoutQueries : Nat
  withQueries : Nat
  rate : ℚ
  hardCount : Nat
  softCount : Nat
  details : List String

/-- `generate_report`. -/
def generate_report (results : List AnalysisResult) : Report :=
  ⟨results.length, noQueryCount results, (queryResults results).length,
    resolutionRate results, hardResolutions results, softResolutions results,
    detailBlocks results⟩

/-- The message dict appended by `group_conversations`. -/
def toMsg (r : NormRow) : Msg :=
  ⟨r.message_timestamp, r.message_body, r.is_ai⟩

/-- The contribution of a normalized row to grouping: skipped when the
customer number is undefined. -/
def msgIfCustomer (r : NormRow) : Option Msg :=
  match r.customer_number with
  | none => none
  | some _ => some (toMsg r)

/-- Append a message under a key in the insertion-ordered conversation
map (`self.conversations[customer].append(...)`, creating the key on
first use). -/
def addMsg : List (String × List Msg) → String → Msg → List (String × List Msg)
  | [], k, m => [(k, [m])]
  | (a, l) :: rest, k, m =>
    if a = k then (a, l ++ [m]) :: rest else (a, l) :: addMsg rest k m

/-- One iteration of `group_conversations`. -/
def groupStep (convs : List (String × List Msg)) (r : NormRow) : List (String × List Msg) :=
  match r.customer_number with
  | none => convs
  | some k => addMsg convs k (toMsg r)

/-- The fold of `group_conversations` over the rows. -/
def groupAux (convs : List (String × List Msg)) : List NormRow → List (String × List Msg)
  | [] => convs
  | r :: rest => groupAux (groupStep convs r) rest

/-- `group_conversations`. -/
def group_conversations (rows : List NormRow) : List (String × List Msg) :=
  groupAux [] rows

/-- Dictionary lookup in the conversation map. -/
def findVal : List (String × List Msg) → String → Option (List Msg)
  | [], _ => none
  | (a, l) :: rest, k => if a = k then some l else findVal rest k

/-- All messages stored in the conversation map, in map order. -/
def flattenConvs (convs : List (String × List Msg)) : List Msg :=
  (convs.map Prod.snd).flatten

/-- The messages of the thread keyed `k`, read off the input rows. -/
def threadMsgs (rows : List NormRow) (k : String) : List Msg :=
  (rows.filter (fun r => r.customer_number == some k)).map toMsg

/-- A `self.results` entry produced by the error path of
`analyze_conversation` for a failure detail `e`. -/
def errorAnalysis (cid : String) (n : Nat) (e : String) : AnalysisResult :=
  mkResult cid n (errorResult e)

/-- Three with-query results, two of whose resolutions equal "RESOLVED"
case-insensitively ("Resolved" and "resolved"), one "UNRESOLVED". -/
def rateExample : List AnalysisResult :=
  [⟨"c1", 3, PyVal.bool true, "order status", "Resolved", "Hard", "ok"⟩,
   ⟨"c2", 2, PyVal.bool true, "billing", "resolved", "Soft", "ok"⟩,
   ⟨"c3", 4, PyVal.bool true, "shipping", "UNRESOLVED", "None", "escalated"⟩]

/-- Four with-query results whose resolution types are "hard", "soft",
"Hard" and "Soft" respectively. -/
def caseExample : List AnalysisResult :=
  [⟨"c1", 1, PyVal.bool true, "q", "RESOLVED", "hard", "r"⟩,
   ⟨"c2", 1, PyVal.bool true, "q", "RESOLVED", "soft", "r"⟩,
   ⟨"c3", 1, PyVal.bool true, "q", "RESOLVED", "Hard", "r"⟩,
   ⟨"c4", 1, PyVal.bool true, "q", "RESOLVED", "Soft", "r"⟩]

/-- C3: on a thread with zero operator-authored (AI) messages,
`analyze_conversation` short-circuits to the fixed `NO_QUERY` result
(`has_query = false` and all three categorical fields `"NO_QUERY"`, with
the fixed reasoning string), and the external-call branch is not reached.
The result is a constant, so it is in particular independent of `call`. -/
theorem no_ai_short_circuit (call : String → String → Except String ClassificationResult)
    (messages : List Msg) (h : messages.filter (fun m => m.is_ai) = []) :
    analyze_conversation call messages = noQueryResult ∧ calls_external messages = false := by
  constructor
  · simp [analyze_conversation, h]
  · simp [calls_external, h]

/-- C3 witness: a concrete customer-only thread short-circuits. -/
theorem no_ai_short_circuit_witness :
    analyze_conversation (fun _ _ => Except.error "unused") [⟨0, "hello", false⟩] = noQueryResult ∧
      calls_external [⟨0, "hello", false⟩] = false :=
  no_ai_short_circuit (fun _ _ => Except.error "unused") [⟨0, "hello", false⟩] (by decide)

/-- C1 counterexample: on a thread whose external call fails, the returned
result does NOT have every field equal to the `"ERROR"` sentinel: the
`has_query` field is the boolean `false`, not `"ERROR"`. -/
theorem error_fields_counterexample :
    (analyze_conversation (fun _ _ => Except.error "boom") [⟨0, "hi", true⟩]).has_query
        = PyVal.bool false ∧
      (analyze_conversation (fun _ _ => Except.error "boom") [⟨0, "hi", true⟩]).has_query
        ≠ PyVal.str "ERROR" := by
  decide

/-- C1 (amended): if the thread has at least one AI message and the
external judgment call on its transcripts fails (or its response cannot
be parsed — both raise and reach the same handler), `analyze_conversation`
returns the result with `has_query = false`, the three categorical string
fields set to `"ERROR"`, and the reasoning `"Error analyzing
conversation: "` followed by the failure detail.  Moreover the failure is
not fatal to the batch: the number of results produced by
`process_conversations` does not depend on the external call at all. -/
theorem error_path_classification :
    (∀ (call : String → String → Except String ClassificationResult)
        (messages : List Msg) (e : String),
      messages.filter (fun m => m.is_ai) ≠ [] →
      call (_format_conversation messages)
          (_format_conversation (messages.filter (fun m => m.is_ai))) = Except.error e →
      analyze_conversation call messages = errorResult e) ∧
    (∀ (call₁ call₂ : String → String → Except String ClassificationResult)
        (convs : List (String × List Msg)),
      (process_conversations call₁ convs).length = (process_conversations call₂ convs).length) := by
  constructor
  · intro call messages e hne hcall
    simp [analyze_conversation, List.isEmpty_iff, hne, hcall]
  · intro call₁ call₂ convs
    induction convs with
    | nil => rfl
    | cons c rest ih =>
      simp only [process_conversations, List.filterMap_cons] at ih ⊢
      rcases c with ⟨k, msgs⟩
      by_cases hk : k = ""
      · simp [processConv, hk, ih]
      · cases msgs with
        | nil => simp [processConv, hk, ih]
        | cons m t => simp [processConv, hk, ih]

/-- C1 witness: a concrete one-message AI thread with a failing call. -/
theorem error_path_classification_witness :
    analyze_conversation (fun _ _ => Except.error "boom") [⟨0, "hi", true⟩] = errorResult "boom" :=
  error_path_classification.1 (fun _ _ => Except.error "boom") [⟨0, "hi", true⟩] "boom"
    (by decide) rfl

/-- C2: behavior of `_extract_customer_number` on degenerate participant
lists, evaluated on concrete inputs.  A list containing only the operator
identifier makes the extraction raise `IndexError` (the filtered list is
empty and `[...][0]` is taken), so normalization fails on such a row
instead of yielding the undefined sentinel; an empty participant-list
string yields the empty string as counterparty (which grouping does not
skip); only a missing (NaN) field yields `None`; and a `None` customer
number is indeed skipped by grouping. -/
theorem extract_failure_modes :
    _extract_customer_number (some support_number) = Except.error () ∧
      _extract_customer_number (some "") = Except.ok (some "") ∧
      _extract_customer_number none = Except.ok none ∧
      group_conversations [⟨5, "hello", true, none⟩] = [] := by
  decide

/-- C4: the resolution rate is 0 when there are no with-query results
(no division-by-zero fault), otherwise it is the number of with-query
results whose `resolution` compares case-insensitively equal to
"RESOLVED" (via `upper()`), divided by the number of with-query results,
times 100; on three with-query results with resolutions "Resolved",
"resolved", "UNRESOLVED", the rate is 200/3, which renders to one decimal
place as 66.7%. -/
theorem resolution_rate_spec :
    (∀ results : List AnalysisResult,
      (queryResults results).length = 0 → resolutionRate results = 0) ∧
    (∀ results : List AnalysisResult, 0 < (queryResults results).length →
      resolutionRate results =
        (resolvedCount results : ℚ) / ((queryResults results).length : ℚ) * 100) ∧
    resolutionRate rateExample = 200 / 3 ∧
    round (resolutionRate rateExample * 10) = (667 : ℤ) := by
  have hq3 : (queryResults rateExample).length = 3 := by decide
  have hr2 : resolvedCount rateExample = 2 := by decide
  have hrate : resolutionRate rateExample = 200 / 3 := by
    rw [resolutionRate, hr2, hq3]
    norm_num
  refine ⟨?_, ?_, hrate, ?_⟩
  · intro results h
    simp [resolutionRate, h]
  · intro results h
    rw [resolutionRate, if_pos h]
  · rw [hrate, round_eq]
    norm_num

/-- C4 witness: the empty results collection has rate 0. -/
theorem resolution_rate_spec_witness : resolutionRate [] = 0 :=
  resolution_rate_spec.1 [] rfl

/-- C5: the Hard and Soft counts use exact-case equality on
`resolution_type`: prepending a with-query (or any) result whose
`resolution_type` differs from the exact string never changes the count;
concretely, of four with-query results typed "hard", "soft", "Hard",
"Soft", only one counts as Hard and one as Soft. -/
theorem hard_soft_exact_case :
    (∀ (cid : String) (n : Nat) (hq : PyVal) (qt res rt rsn : String)
        (rest : List AnalysisResult), rt ≠ "Hard" →
      hardResolutions (⟨cid, n, hq, qt, res, rt, rsn⟩ :: rest) = hardResolutions rest) ∧
    (∀ (cid : String) (n : Nat) (hq : PyVal) (qt res rt rsn : String)
        (rest : List AnalysisResult), rt ≠ "Soft" →
      softResolutions (⟨cid, n, hq, qt, res, rt, rsn⟩ :: rest) = softResolutions rest) ∧
    hardResolutions caseExample = 1 ∧ softResolutions caseExample = 1 ∧
    (queryResults caseExample).length = 4 := by
  refine ⟨?_, ?_, by decide, by decide, by decide⟩
  · intro cid n hq qt res rt rsn rest h
    simp only [hardResolutions, queryResults, List.filter_cons]
    cases htr : hq.truthy <;> simp [htr, h]
  · intro cid n hq qt res rt rsn rest h
    simp only [softResolutions, queryResults, List.filter_cons]
    cases htr : hq.truthy <;> simp [htr, h]

/-- C5 witness: a lowercase "hard" with-query result counts as zero. -/
theorem hard_soft_exact_case_witness :
    hardResolutions [⟨"c", 1, PyVal.bool true, "q", "RESOLVED", "hard", "r"⟩]
      = hardResolutions [] :=
  hard_soft_exact_case.1 "c" 1 (PyVal.bool true) "q" "RESOLVED" "hard" "r" [] (by decide)

/-- C8: whenever extraction succeeds with a defined counterparty, that
counterparty differs from the operator identifier: it is the head of the
list filtered by `!= support_number`. -/
theorem counterparty_never_operator (members : Option String) (c : String)
    (h : _extract_customer_number members = Except.ok (some c)) : c ≠ support_number := by
  cases members with
  | none => simp [_extract_customer_number] at h
  | some s =>
    simp only [_extract_customer_number] at h
    by_cases hl : (splitComma s).length > 0
    · rw [if_pos hl] at h
      cases hfilter : ((splitComma s).map pyStrip).filter (fun n => n != support_number) with
      | nil => rw [hfilter] at h; exact absurd h (by simp)
      | cons c₀ t =>
        rw [hfilter] at h
        simp only [Except.ok.injEq, Option.some.injEq] at h
        subst h
        have hmem : c₀ ∈ ((splitComma s).map pyStrip).filter (fun n => n != support_number) := by
          rw [hfilter]; exact List.mem_cons_self c₀ t
        have hne := (List.mem_filter.mp hmem).2
        simpa using hne
    · rw [if_neg hl] at h
      simp at h

/-- C8 witness: a two-party participant list yields the non-operator
party, which differs from the operator identifier. -/
theorem counterparty_never_operator_witness :
    _extract_customer_number (some "+14159436084,+15551234567")
        = Except.ok (some "+15551234567") ∧
      "+15551234567" ≠ support_number :=
  ⟨by decide,
   counterparty_never_operator (some "+14159436084,+15551234567") "+15551234567" (by decide)⟩

/-- C9: the derived `is_ai` flag of a row is true exactly when its raw
participant-list string contains no comma separator, and a list made of
the operator identifier plus one other identifier (in either order)
yields `is_ai = false`. -/
theorem is_ai_iff_no_separator :
    (∀ s : String, is_ai_of (some s) = !(strContainsComma s)) ∧
    (∀ w : String, is_ai_of (some (support_number ++ "," ++ w)) = false ∧
      is_ai_of (some (w ++ "," ++ support_number)) = false) := by
  constructor
  · intro s; rfl
  · intro w
    constructor <;> simp [is_ai_of, strContainsComma, String.data_append]

/-- C10: an error-path result (`has_query` is the boolean `false`) is not
a with-query result, so it is counted among the no-query conversations,
leaves the resolution-rate numerator and denominator unchanged,
contributes to neither the Hard nor Soft count, and still contributes its
own block, in position, to the Detailed Analysis section. -/
theorem error_result_reporting (pre post : List AnalysisResult) (cid : String) (n : Nat)
    (e : String) :
    queryResults (pre ++ errorAnalysis cid n e :: post) = queryResults (pre ++ post) ∧
      noQueryCount (pre ++ errorAnalysis cid n e :: post) = noQueryCount (pre ++ post) + 1 ∧
      resolvedCount (pre ++ errorAnalysis cid n e :: post) = resolvedCount (pre ++ post) ∧
      resolutionRate (pre ++ errorAnalysis cid n e :: post) = resolutionRate (pre ++ post) ∧
      hardResolutions (pre ++ errorAnalysis cid n e :: post) = hardResolutions (pre ++ post) ∧
      softResolutions (pre ++ errorAnalysis cid n e :: post) = softResolutions (pre ++ post) ∧
      detailBlocks (pre ++ errorAnalysis cid n e :: post) =
        detailBlocks pre ++ detailBlock (errorAnalysis cid n e) :: detailBlocks post := by
  have hq : queryResults (pre ++ errorAnalysis cid n e :: post) = queryResults (pre ++ post) := by
    simp [queryResults, errorAnalysis, mkResult, errorResult, PyVal.truthy, List.filter_append]
  have hle := List.length_filter_le (fun r : AnalysisResult => r.has_query.truthy) (pre ++ post)
  refine ⟨hq, ?_, ?_, ?_, ?_, ?_, ?_⟩
  · simp only [noQueryCount, hq, List.length_append, List.length_cons]
    have : (queryResults (pre ++ post)).length ≤ (pre ++ post).length := hle
    simp only [List.length_append] at this
    omega
  · simp only [resolvedCount, hq]
  · simp only [resolutionRate, resolvedCount, hq]
  · simp only [hardResolutions, hq]
  · simp only [softResolutions, hq]
  · simp [detailBlocks]

/-- Lookup after appending a message under key `k`. -/
lemma findVal_addMsg (convs : List (String × List Msg)) (k q : String) (m : Msg) :
    findVal (addMsg convs k m) q =
      if k = q then some (((findVal convs q).getD []) ++ [m]) else findVal convs q := by
  induction convs with
  | nil => by_cases h : k = q <;> simp [addMsg, findVal, h]
  | cons p rest ih =>
    rcases p with ⟨a, l⟩
    by_cases hak : a = k
    · subst hak
      by_cases haq : a = q <;> simp [addMsg, findVal, haq]
    · by_cases haq : a = q
      · subst haq
        have hkq : ¬(k = a) := fun hh => hak hh.symm
        simp [addMsg, findVal, hak, hkq]
      · simp [addMsg, findVal, hak, haq, ih]

/-- Lookup in the grouping fold: the thread at `q` is whatever the
accumulator already held, extended by the input rows whose customer is
`q`, in input order; a key is created only when such a row exists. -/
lemma findVal_groupAux (rows : List NormRow) (convs : List (String × List Msg)) (q : String) :
    findVal (groupAux convs rows) q =
      match findVal convs q with
      | some l => some (l ++ threadMsgs rows q)
      | none => if threadMsgs rows q = [] then none else some (threadMsgs rows q) := by
  induction rows generalizing convs with
  | nil => cases h : findVal convs q <;> simp [groupAux, threadMsgs, h]
  | cons r rest ih =>
    simp only [groupAux]
    rw [ih]
    cases hc : r.customer_number with
    | none =>
      have hth : threadMsgs (r :: rest) q = threadMsgs rest q := by
        simp [threadMsgs, List.filter_cons, hc]
      rw [hth, groupStep, hc]
    | some k =>
      simp only [groupStep, hc]
      by_cases hkq : k = q
      · have hth : threadMsgs (r :: rest) q = toMsg r :: threadMsgs rest q := by
          simp [threadMsgs, List.filter_cons, hc, hkq]
        rw [hth, findVal_addMsg, if_pos hkq]
        cases h : findVal convs q <;> simp [h]
      · have hth : threadMsgs (r :: rest) q = threadMsgs rest q := by
          simp [threadMsgs, List.filter_cons, hc, hkq]
        rw [hth, findVal_addMsg, if_neg hkq]

/-- Lookup in the full grouping: exactly the input rows keyed `q`, when
there are any. -/
lemma findVal_group (rows : List NormRow) (q : String) :
    findVal (group_conversations rows) q =
      if threadMsgs rows q = [] then none else some (threadMsgs rows q) := by
  have h := findVal_groupAux rows [] q
  simpa [group_conversations, findVal] using h

/-- Appending one message adds exactly that message to the stored
multiset. -/
lemma flattenConvs_addMsg (convs : List (String × List Msg)) (k : String) (m : Msg) :
    (flattenConvs (addMsg convs k m)).Perm (m :: flattenConvs convs) := by
  induction convs with
  | nil => simp [addMsg, flattenConvs]
  | cons p rest ih =>
    rcases p with ⟨a, l⟩
    by_cases h : a = k
    · subst h
      rw [show addMsg ((a, l) :: rest) a m = (a, l ++ [m]) :: rest from by simp [addMsg]]
      simp only [flattenConvs, List.map_cons, List.flatten_cons]
      rw [List.append_assoc]
      exact List.perm_middle
    · rw [show addMsg ((a, l) :: rest) k m = (a, l) :: addMsg rest k m from by simp [addMsg, h]]
      simp only [flattenConvs, List.map_cons, List.flatten_cons]
      exact (ih.append_left l).trans List.perm_middle

/-- The grouping fold stores exactly the accumulator's messages plus the
defined-counterparty rows. -/
lemma flattenConvs_groupAux (rows : List NormRow) (convs : List (String × List Msg)) :
    (flattenConvs (groupAux convs rows)).Perm
      (flattenConvs convs ++ rows.filterMap msgIfCustomer) := by
  induction rows generalizing convs with
  | nil => simp [groupAux]
  | cons r rest ih =>
    simp only [groupAux, List.filterMap_cons]
    cases hc : r.customer_number with
    | none =>
      simp only [groupStep, hc, msgIfCustomer]
      exact ih convs
    | some k =>
      simp only [groupStep, hc, msgIfCustomer]
      refine (ih (addMsg convs k (toMsg r))).trans ?_
      refine ((flattenConvs_addMsg convs k (toMsg r)).append_right _).trans ?_
      exact List.perm_middle.symm

/-- Every key of the extended map is an old key or the appended key. -/
lemma keys_addMsg_subset (convs : List (String × List Msg)) (k x : String) (m : Msg)
    (h : x ∈ (addMsg convs k m).map Prod.fst) : x ∈ convs.map Prod.fst ∨ x = k := by
  induction convs with
  | nil =>
    simp [addMsg] at h
    exact Or.inr h
  | cons p rest ih =>
    rcases p with ⟨a, l⟩
    by_cases hak : a = k
    · subst hak
      rw [show addMsg ((a, l) :: rest) a m = (a, l ++ [m]) :: rest from by simp [addMsg]] at h
      exact Or.inl (by simpa using h)
    · rw [show addMsg ((a, l) :: rest) k m = (a, l) :: addMsg rest k m
          from by simp [addMsg, hak]] at h
      simp only [List.map_cons, List.mem_cons] at h
      rcases h with h | h
      · exact Or.inl (by simp [h])
      · rcases ih h with h' | h'
        · exact Or.inl (by simp [h'])
        · exact Or.inr h'

/-- Appending a message preserves distinctness of the keys. -/
lemma keys_addMsg_nodup (convs : List (String × List Msg)) (k : String) (m : Msg)
    (h : (convs.map Prod.fst).Nodup) : ((addMsg convs k m).map Prod.fst).Nodup := by
  induction convs with
  | nil => simp [addMsg]
  | cons p rest ih =>
    rcases p with ⟨a, l⟩
    by_cases hak : a = k
    · subst hak
      simpa [addMsg] using h
    · simp only [List.map_cons, List.nodup_cons] at h
      rw [show addMsg ((a, l) :: rest) k m = (a, l) :: addMsg rest k m
          from by simp [addMsg, hak]]
      simp only [List.map_cons, List.nodup_cons]
      refine ⟨fun hmem => ?_, ih h.2⟩
      rcases keys_addMsg_subset rest k a m hmem with h' | h'
      · exact h.1 h'
      · exact hak h'

/-- Appending a message preserves non-emptiness of all stored threads. -/
lemma vals_addMsg_nonempty (convs : List (String × List Msg)) (k : String) (m : Msg)
    (h : ∀ p ∈ convs, p.2 ≠ []) : ∀ p ∈ addMsg convs k m, p.2 ≠ [] := by
  induction convs with
  | nil =>
    intro p hp
    simp only [addMsg, List.mem_singleton] at hp
    subst hp
    simp
  | cons entry rest ih =>
    rcases entry with ⟨a, l⟩
    intro p hp
    by_cases hak : a = k
    · subst hak
      rw [show addMsg ((a, l) :: rest) a m = (a, l ++ [m]) :: rest
          from by simp [addMsg]] at hp
      rcases List.mem_cons.mp hp with hp | hp
      · subst hp; simp
      · exact h p (List.mem_cons_of_mem _ hp)
    · rw [show addMsg ((a, l) :: rest) k m = (a, l) :: addMsg rest k m
          from by simp [addMsg, hak]] at hp
      rcases List.mem_cons.mp hp with hp | hp
      · subst hp
        exact h (a, l) (List.mem_cons_self _ _)
      · exact ih (fun p' hp' => h p' (List.mem_cons_of_mem _ hp')) p hp

/-- The grouping fold preserves key distinctness and thread
non-emptiness. -/
lemma groupAux_inv (rows : List NormRow) (convs : List (String × List Msg))
    (hnd : (convs.map Prod.fst).Nodup) (hne : ∀ p ∈ convs, p.2 ≠ []) :
    ((groupAux convs rows).map Prod.fst).Nodup ∧ ∀ p ∈ groupAux convs rows, p.2 ≠ [] := by
  induction rows generalizing convs with
  | nil => exact ⟨hnd, hne⟩
  | cons r rest ih =>
    simp only [groupAux]
    cases hc : r.customer_number with
    | none =>
      simp only [groupStep, hc]
      exact ih convs hnd hne
    | some k =>
      simp only [groupStep, hc]
      exact ih _ (keys_addMsg_nodup convs k (toMsg r) hnd)
        (vals_addMsg_nonempty convs k (toMsg r) hne)

/-- C6: grouping is a partition of the normalized input.  The multiset of
all stored thread messages equals the input sequence restricted to rows
with a defined counterparty (so, counting multiplicity, no message lands
in two threads); the keys of the mapping are pairwise distinct; and every
key's thread is non-empty. -/
theorem grouping_partition (rows : List NormRow) :
    (flattenConvs (group_conversations rows)).Perm (rows.filterMap msgIfCustomer) ∧
      ((group_conversations rows).map Prod.fst).Nodup ∧
      (group_conversations rows).all (fun p => !p.2.isEmpty) = true := by
  have hinv := groupAux_inv rows [] (by simp) (by simp)
  refine ⟨?_, hinv.1, ?_⟩
  · simpa [flattenConvs] using flattenConvs_groupAux rows []
  · rw [List.all_eq_true]
    intro p hp
    have := hinv.2 p hp
    simpa [List.isEmpty_iff] using this

/-- Timestamps survive normalization, rowwise and in order. -/
lemma mapExcept_ok_ts (l : List RawRow) (norm : List NormRow)
    (h : mapExcept l = Except.ok norm) :
    norm.map NormRow.message_timestamp = l.map RawRow.message_timestamp := by
  induction l generalizing norm with
  | nil =>
    simp only [mapExcept, Except.ok.injEq] at h
    subst h
    rfl
  | cons a t ih =>
    simp only [mapExcept] at h
    cases ha : normalizeRow a with
    | error e => rw [ha] at h; simp at h
    | ok b =>
      rw [ha] at h
      cases ht : mapExcept t with
      | error e => rw [ht] at h; simp at h
      | ok bs =>
        rw [ht] at h
        simp only [Except.ok.injEq] at h
        subst h
        have hb : b.message_timestamp = a.message_timestamp := by
          simp only [normalizeRow] at ha
          cases hce : _extract_customer_number a.message_members with
          | error e => rw [hce] at ha; simp at ha
          | ok c =>
            rw [hce] at ha
            simp only [Except.ok.injEq] at ha
            rw [← ha]
        simp [ih bs ht, hb]

/-- C7: a successful `preprocess_data` output is globally sorted
non-decreasing by timestamp, and consequently every thread produced by
`group_conversations` from it is sorted non-decreasing by timestamp
(threads inherit the global order). -/
theorem preprocess_sorted_threads_sorted (raw : List RawRow) (norm : List NormRow)
    (h : preprocess_data raw = Except.ok norm) :
    norm.Pairwise (fun a b : NormRow => a.message_timestamp ≤ b.message_timestamp) ∧
      ∀ (q : String) (l : List Msg), findVal (group_conversations norm) q = some l →
        l.Pairwise (fun a b : Msg => a.message_timestamp ≤ b.message_timestamp) := by
  have hsorted : (List.insertionSort tsLE
      (raw.filter (fun r => !(containsSub congratsNotice.data r.message_body.data)))).Pairwise
        tsLE :=
    List.sorted_insertionSort tsLE _
  have hts := mapExcept_ok_ts _ _ h
  have h1 : (List.map RawRow.message_timestamp (List.insertionSort tsLE
      (raw.filter (fun r => !(containsSub congratsNotice.data r.message_body.data))))).Pairwise
        (· ≤ ·) :=
    List.pairwise_map.mpr hsorted
  rw [← hts] at h1
  have hnorm : norm.Pairwise (fun a b : NormRow => a.message_timestamp ≤ b.message_timestamp) :=
    List.pairwise_map.mp h1
  refine ⟨hnorm, fun q l hl => ?_⟩
  rw [findVal_group] at hl
  by_cases hth : threadMsgs norm q = []
  · rw [if_pos hth] at hl
    exact absurd hl (by simp)
  · rw [if_neg hth] at hl
    have hleq : l = threadMsgs norm q := by
      simpa using hl.symm
    subst hleq
    exact List.pairwise_map.mpr
      (hnorm.filter (fun r : NormRow => r.customer_number == some q))

/-- Two raw rows arriving out of order, for distinct counterparties. -/
def rawExample : List RawRow :=
  [⟨"later", 2, some "+14159436084,+15551234567"⟩,
   ⟨"hello", 1, some "+15559876543"⟩]

/-- The normalized output of `preprocess_data` on `rawExample`. -/
def normExample : List NormRow :=
  [⟨1, "hello", true, some "+15559876543"⟩,
   ⟨2, "later", false, some "+15551234567"⟩]

/-- C7 witness: on the concrete out-of-order input, preprocessing
succeeds and both the global sequence and a concrete thread are sorted. -/
theorem preprocess_sorted_threads_sorted_witness :
    normExample.Pairwise (fun a b : NormRow => a.message_timestamp ≤ b.message_timestamp) ∧
      ([⟨1, "hello", true⟩] : List Msg).Pairwise
        (fun a b : Msg => a.message_timestamp ≤ b.message_timestamp) :=
  ⟨(preprocess_sorted_threads_sorted rawExample normExample (by decide)).1,
   (preprocess_sorted_threads_sorted rawExample normExample (by decide)).2
     "+15559876543" [⟨1, "hello", true⟩] (by decide)⟩

end ConvAnalyzer
